import Mathlib

/-!
Verification of the dynamically-checked access-control cell of the
gdextension binding layer: the debug-build diagnostic ledger
(`godot-cell/src/debug_state.rs`) and the access state machine it supports.

The ledger (`DebugState`) is embedded directly from the Rust source.  The
access state machine (`AccessState`) and the cell's borrow/release control
flow are not part of the sources at hand, so they are modelled from the
specification text.
-/

/-- A captured call-stack snapshot (`std::backtrace::Backtrace`).  The ledger
only ever renders a snapshot with `to_string`, so a snapshot is modelled by
its rendered text; capturing one (`Backtrace::capture()`) is an external
effect, modelled by passing the captured snapshot as an explicit argument to
each operation that would capture it. -/
abbrev Backtrace := String

/-- Shallow embedding of `struct DebugState` from
`godot-cell/src/debug_state.rs`.  The `HashMap<u64, Backtrace>` is modelled as
an association list (reachable states keep its keys distinct, mirroring the
hash map); the `u64` counter is modelled on `Nat`: the file is compiled only
under `debug_assertions`, where `u64` overflow panics rather than wrapping, so
the counter arithmetic never wraps. -/
structure DebugState where
  shared_borrow_count : Nat
  shared_borrows : List (Nat × Backtrace)
  mutable_borrow : Option Backtrace
deriving DecidableEq

namespace DebugState

/-- Embedding of `DebugState::new`. -/
def new : DebugState :=
  { shared_borrow_count := 0, shared_borrows := [], mutable_borrow := none }

/-- Embedding of `DebugState::track_shared_borrow`; `captured` is the snapshot
taken by `Backtrace::capture()` during the call.  The map insertion replaces
any entry already stored under the fresh key, as `HashMap::insert` would. -/
def track_shared_borrow (s : DebugState) (captured : Backtrace) :
    DebugState × Nat :=
  let count := s.shared_borrow_count
  ({ s with
      shared_borrow_count := count + 1,
      shared_borrows :=
        (count, captured) :: s.shared_borrows.filter (fun p => p.1 ≠ count) },
    count)

/-- Embedding of `DebugState::untrack_shared_borrow`.  `none` models the
panic of `.remove(&id).expect("shared borrow should be tracked")` when `id`
is not in the map. -/
def untrack_shared_borrow (s : DebugState) (id : Nat) : Option DebugState :=
  match s.shared_borrows.lookup id with
  | some _ =>
      some { s with shared_borrows := s.shared_borrows.filter (fun p => p.1 ≠ id) }
  | none => none

/-- Embedding of `DebugState::track_mutable_borrow`; `captured` is the
snapshot `Backtrace::capture()` would take in the `None` arm.  `none` models
the failure of `assert!(self.mutable_borrow.is_none())`. -/
def track_mutable_borrow (s : DebugState) (backtrace : Option Backtrace)
    (captured : Backtrace) : Option DebugState :=
  match s.mutable_borrow with
  | some _ => none
  | none =>
      some { s with
              mutable_borrow := some (match backtrace with
                | some b => b
                | none => captured) }

/-- Embedding of `DebugState::untrack_mutable_borrow`.  `none` models the
panic of `self.mutable_borrow.take().unwrap()` when no exclusive snapshot is
recorded. -/
def untrack_mutable_borrow (s : DebugState) : Option (Backtrace × DebugState) :=
  match s.mutable_borrow with
  | some b => some (b, { s with mutable_borrow := none })
  | none => none

/-- The comparison `sort_by_key(|(i, _)| *i)` sorts by: ascending id. -/
def keyLe (p q : Nat × Backtrace) : Prop := p.1 ≤ q.1

instance : DecidableRel keyLe := fun p q => Nat.decLe p.1 q.1

instance : IsTotal (Nat × Backtrace) keyLe := ⟨fun p q => Nat.le_total p.1 q.1⟩

instance : IsTrans (Nat × Backtrace) keyLe := ⟨fun _ _ _ => Nat.le_trans⟩

/-- Embedding of `DebugState::borrow_locations`: if any shared snapshot is
tracked, sort the entries by id ascending, reverse, render each snapshot and
concatenate; otherwise render the exclusive snapshot if present; otherwise
the empty string. -/
def borrow_locations (s : DebugState) : String :=
  if ¬ s.shared_borrows.isEmpty then
    String.join
      (((List.insertionSort keyLe s.shared_borrows).reverse).map (fun p => p.2))
  else
    match s.mutable_borrow with
    | some m => m
    | none => ""

end DebugState

/-- Modelled from the spec: the `AccessState` state machine (spec section 4.1)
is not among the sources at hand, only its diagnostic ledger is; the tagged
value has states `Free`, `Shared(n)` with `n ≥ 1`, `Exclusive`, `Poisoned`. -/
inductive AccessState where
  | Free
  | Shared (n : Nat)
  | Exclusive
  | Poisoned
deriving DecidableEq

/-- Modelled from the spec: the user-facing error taxonomy of spec
section 7. -/
inductive AccessError where
  | AlreadyBorrowed
  | AlreadyExclusivelyBorrowed
  | Poisoned
deriving DecidableEq

namespace AccessState

/-- Modelled from the spec: `acquire_shared()` is valid on `Free` or
`Shared(n)` and transitions to `Shared(n+1)`; it fails on `Exclusive` with
`AlreadyExclusivelyBorrowed` and on `Poisoned` with `Poisoned`. -/
def acquire_shared : AccessState → Except AccessError AccessState
  | .Free => .ok (.Shared 1)
  | .Shared n => .ok (.Shared (n + 1))
  | .Exclusive => .error .AlreadyExclusivelyBorrowed
  | .Poisoned => .error .Poisoned

/-- Modelled from the spec: `acquire_exclusive()` is valid only on `Free`;
any outstanding access fails it with `AlreadyBorrowed`, a poisoned cell with
`Poisoned`. -/
def acquire_exclusive : AccessState → Except AccessError AccessState
  | .Free => .ok .Exclusive
  | .Shared _ => .error .AlreadyBorrowed
  | .Exclusive => .error .AlreadyBorrowed
  | .Poisoned => .error .Poisoned

/-- Modelled from the spec: `release_shared()` is valid only on `Shared(n)`,
going to `Shared(n-1)` if `n > 1` and to `Free` otherwise; elsewhere it is a
contract violation (`none`). -/
def release_shared : AccessState → Option AccessState
  | .Shared n => some (if 1 < n then .Shared (n - 1) else .Free)
  | _ => none

/-- Modelled from the spec: `release_exclusive(orderly)` is valid only on
`Exclusive`; orderly teardown goes to `Free`, abnormal teardown to
`Poisoned`. -/
def release_exclusive (orderly : Bool) : AccessState → Option AccessState
  | .Exclusive => some (if orderly then .Free else .Poisoned)
  | _ => none

end AccessState

/-- Modelled from the spec: one borrow or release call on the cell (spec
section 4.2); exclusive release carries the orderly/abnormal teardown flag. -/
inductive CellOp where
  | borrow
  | borrowMut
  | releaseShared
  | releaseExclusive (orderly : Bool)
deriving DecidableEq

/-- Modelled from the spec: one call of the cell.  A failed borrow returns an
error and leaves the state unchanged; a release in an invalid state is a
contract violation that aborts the operation, so it too produces no
transition. -/
def stepCell (s : AccessState) : CellOp → AccessState
  | .borrow => ((AccessState.acquire_shared s).toOption).getD s
  | .borrowMut => ((AccessState.acquire_exclusive s).toOption).getD s
  | .releaseShared => (AccessState.release_shared s).getD s
  | .releaseExclusive o => (AccessState.release_exclusive o s).getD s

/-- Modelled from the spec: the state after a sequence of borrow/release
calls. -/
def runCell (s : AccessState) (ops : List CellOp) : AccessState :=
  ops.foldl stepCell s

/-- How many shared accesses a state says are outstanding. -/
def sharedCount : AccessState → Nat
  | .Shared n => n
  | _ => 0

/-- How many exclusive accesses a state says are outstanding. -/
def exclusiveCount : AccessState → Nat
  | .Exclusive => 1
  | _ => 0

/-- The states reachable from `Free` never carry a `Shared 0` tag. -/
def StateOk (s : AccessState) : Prop :=
  match s with
  | .Shared n => 1 ≤ n
  | _ => True

/-- One ledger call; any snapshot the call would capture is passed in
explicitly. -/
inductive DOp where
  | trackShared (captured : Backtrace)
  | untrackShared (id : Nat)
  | trackMut (backtrace : Option Backtrace) (captured : Backtrace)
  | untrackMut
deriving DecidableEq

/-- Runs a sequence of ledger calls from a state, collecting in order the ids
returned by `track_shared_borrow`; `none` as soon as any call panics. -/
def runD : DebugState → List DOp → Option (DebugState × List Nat)
  | s, [] => some (s, [])
  | s, DOp.trackShared bt :: ops =>
      match runD (DebugState.track_shared_borrow s bt).1 ops with
      | some (t, ids) => some (t, (DebugState.track_shared_borrow s bt).2 :: ids)
      | none => none
  | s, DOp.untrackShared id :: ops =>
      match DebugState.untrack_shared_borrow s id with
      | some s' => runD s' ops
      | none => none
  | s, DOp.trackMut bt cap :: ops =>
      match DebugState.track_mutable_borrow s bt cap with
      | some s' => runD s' ops
      | none => none
  | s, DOp.untrackMut :: ops =>
      match DebugState.untrack_mutable_borrow s with
      | some r => runD r.2 ops
      | none => none

/-- Number of `track_shared_borrow` calls in a sequence. -/
def countTrackShared : List DOp → Nat
  | [] => 0
  | DOp.trackShared _ :: ops => countTrackShared ops + 1
  | DOp.untrackShared _ :: ops => countTrackShared ops
  | DOp.trackMut _ _ :: ops => countTrackShared ops
  | DOp.untrackMut :: ops => countTrackShared ops

/-- Number of `untrack_shared_borrow` calls in a sequence. -/
def countUntrackShared : List DOp → Nat
  | [] => 0
  | DOp.trackShared _ :: ops => countUntrackShared ops
  | DOp.untrackShared _ :: ops => countUntrackShared ops + 1
  | DOp.trackMut _ _ :: ops => countUntrackShared ops
  | DOp.untrackMut :: ops => countUntrackShared ops

/-- Whether an exclusive snapshot should be recorded after the calls: the
last mutable-tracking call wins. -/
def mutAfter : Bool → List DOp → Bool
  | b, [] => b
  | b, DOp.trackShared _ :: ops => mutAfter b ops
  | b, DOp.untrackShared _ :: ops => mutAfter b ops
  | _, DOp.trackMut _ _ :: ops => mutAfter true ops
  | _, DOp.untrackMut :: ops => mutAfter false ops

/-- Well-formed ledger keys: the map's keys are distinct and all lie below
the id counter. -/
def KeysOk (s : DebugState) : Prop :=
  (s.shared_borrows.map Prod.fst).Nodup ∧
  ∀ k ∈ s.shared_borrows.map Prod.fst, k < s.shared_borrow_count

/-- Most-recently-acquired-first order on ledger entries: descending id
(ids are allocated in acquisition order). -/
def keyGe (p q : Nat × Backtrace) : Prop := q.1 ≤ p.1

instance : DecidableRel keyGe := fun p q => Nat.decLe q.1 p.1

instance : IsTotal (Nat × Backtrace) keyGe := ⟨fun p q => Nat.le_total q.1 p.1⟩

instance : IsTrans (Nat × Backtrace) keyGe :=
  ⟨fun _ _ _ hab hbc => Nat.le_trans hbc hab⟩

/-- Strictly descending id order; antisymmetric, which pins down a sorted
permutation uniquely. -/
def keyGt (p q : Nat × Backtrace) : Prop := q.1 < p.1

instance : IsAntisymm (Nat × Backtrace) keyGt :=
  ⟨fun _ _ h1 h2 => absurd h1 (Nat.lt_asymm h2)⟩

/-- Rendering of the conflict report as the specification words it: all
currently tracked shared snapshots, most-recently-acquired first (descending
id), if any exist; else the single exclusive snapshot if one exists; else
empty text. -/
def borrowLocationsSpec (s : DebugState) : String :=
  if s.shared_borrows.isEmpty then
    match s.mutable_borrow with
    | some m => m
    | none => ""
  else
    String.join ((List.insertionSort keyGe s.shared_borrows).map (fun p => p.2))

lemma stepCell_ok {s : AccessState} (h : StateOk s) (op : CellOp) :
    StateOk (stepCell s op) := by
  cases s with
  | Free => cases op <;> first | exact Nat.le_refl 1 | trivial
  | Shared n =>
      cases op with
      | borrow => exact Nat.le_succ_of_le h
      | borrowMut => exact h
      | releaseShared =>
          show StateOk (if 1 < n then AccessState.Shared (n - 1) else .Free)
          by_cases h1 : 1 < n
          · rw [if_pos h1]; show 1 ≤ n - 1; omega
          · rw [if_neg h1]; trivial
      | releaseExclusive o => exact h
  | Exclusive =>
      cases op with
      | borrow => trivial
      | borrowMut => trivial
      | releaseShared => trivial
      | releaseExclusive o => cases o <;> trivial
  | Poisoned => cases op <;> trivial

lemma runCell_ok {s : AccessState} (h : StateOk s) (ops : List CellOp) :
    StateOk (runCell s ops) := by
  induction ops generalizing s with
  | nil => exact h
  | cons op ops ih => exact ih (stepCell_ok h op)

/-- C1: after any sequence of borrow and release calls starting from `Free`,
the state records exactly one of: no outstanding access, exactly one
exclusive access, or `n ≥ 1` shared accesses; shared and exclusive accesses
are never simultaneously outstanding, and a `Shared` tag always carries
`n ≥ 1`. -/
theorem cell_state_shared_xor_exclusive (ops : List CellOp) :
    ((sharedCount (runCell .Free ops) = 0 ∧ exclusiveCount (runCell .Free ops) = 0)
      ∨ (exclusiveCount (runCell .Free ops) = 1 ∧ sharedCount (runCell .Free ops) = 0)
      ∨ (1 ≤ sharedCount (runCell .Free ops) ∧ exclusiveCount (runCell .Free ops) = 0))
    ∧ (match runCell .Free ops with
        | .Shared n => 1 ≤ n
        | _ => True) := by
  have h : StateOk (runCell .Free ops) := runCell_ok (s := .Free) trivial ops
  refine ⟨?_, h⟩
  cases hs : runCell .Free ops with
  | Free => exact Or.inl (by simp [sharedCount, exclusiveCount])
  | Shared n =>
      refine Or.inr (Or.inr ?_)
      have hn : 1 ≤ n := by rw [hs] at h; exact h
      simp [sharedCount, exclusiveCount, hn]
  | Exclusive => exact Or.inr (Or.inl (by simp [sharedCount, exclusiveCount]))
  | Poisoned => exact Or.inl (by simp [sharedCount, exclusiveCount])

lemma stepCell_poisoned (op : CellOp) : stepCell .Poisoned op = .Poisoned := by
  cases op <;> rfl

lemma runCell_poisoned (ops : List CellOp) : runCell .Poisoned ops = .Poisoned := by
  induction ops with
  | nil => rfl
  | cons op ops ih =>
      show runCell (stepCell .Poisoned op) ops = .Poisoned
      rw [stepCell_poisoned]; exact ih

/-- C2: tearing an exclusive guard down abnormally sends the cell to
`Poisoned`; from then on the state stays `Poisoned` under every further
sequence of calls, and every later borrow attempt, shared or exclusive,
fails with `AccessError.Poisoned`. -/
theorem cell_poisoning_permanent :
    AccessState.release_exclusive false .Exclusive = some .Poisoned
    ∧ (∀ ops, runCell .Poisoned ops = .Poisoned)
    ∧ (∀ ops,
        AccessState.acquire_shared
          (runCell (stepCell .Exclusive (.releaseExclusive false)) ops)
          = .error .Poisoned)
    ∧ (∀ ops,
        AccessState.acquire_exclusive
          (runCell (stepCell .Exclusive (.releaseExclusive false)) ops)
          = .error .Poisoned) := by
  refine ⟨rfl, runCell_poisoned, fun ops => ?_, fun ops => ?_⟩ <;>
    · have h : stepCell .Exclusive (.releaseExclusive false) = .Poisoned := rfl
      rw [h, runCell_poisoned]
      rfl

lemma lookup_isSome_iff {l : List (Nat × Backtrace)} {id : Nat} :
    (l.lookup id).isSome ↔ id ∈ l.map Prod.fst := by
  induction l with
  | nil => simp [List.lookup]
  | cons p t ih =>
      obtain ⟨k, v⟩ := p
      by_cases h : id = k
      · subst h; simp [List.lookup]
      · have hb : (id == k) = false := by simp [h]
        simp [List.lookup, hb, h, ih]

lemma filter_ne_eq_self {l : List (Nat × Backtrace)} {c : Nat}
    (h : ∀ k ∈ l.map Prod.fst, k < c) :
    l.filter (fun p => p.1 ≠ c) = l := by
  apply List.filter_eq_self.mpr
  intro p hp
  have hlt : p.1 < c := h p.1 (List.mem_map_of_mem Prod.fst hp)
  simp only [ne_eq, decide_not, Bool.not_eq_true', decide_eq_false_iff_not]
  omega

lemma length_filter_ne {l : List (Nat × Backtrace)} {id : Nat}
    (hnd : (l.map Prod.fst).Nodup) (hmem : id ∈ l.map Prod.fst) :
    (l.filter (fun p => p.1 ≠ id)).length + 1 = l.length := by
  induction l with
  | nil => simp at hmem
  | cons p t ih =>
      obtain ⟨k, v⟩ := p
      simp only [List.map_cons, List.nodup_cons] at hnd
      by_cases h : k = id
      · simp only [List.filter_cons, h, List.length_cons]
        simp
        intro a b hab hae
        apply hnd.1
        rw [h]
        exact hae ▸ List.mem_map_of_mem Prod.fst hab
      · have hcond : (decide ((k, v).1 ≠ id)) = true := by simp [h]
        have hmem' : id ∈ t.map Prod.fst := by
          rcases List.mem_cons.mp hmem with h1 | h1
          · exact absurd h1.symm h
          · exact h1
        have hih := ih hnd.2 hmem'
        simp only [List.filter_cons, hcond, if_true, List.length_cons]
        omega

lemma track_shared_step {s : DebugState} (hk : KeysOk s) (bt : Backtrace) :
    (DebugState.track_shared_borrow s bt).1.shared_borrows
      = (s.shared_borrow_count, bt) :: s.shared_borrows := by
  have hf := filter_ne_eq_self (l := s.shared_borrows) (c := s.shared_borrow_count) hk.2
  show ((s.shared_borrow_count, bt)
      :: s.shared_borrows.filter (fun p => p.1 ≠ s.shared_borrow_count)) = _
  rw [hf]

lemma track_shared_keysOk {s : DebugState} (hk : KeysOk s) (bt : Backtrace) :
    KeysOk (DebugState.track_shared_borrow s bt).1 := by
  have h1 := track_shared_step hk bt
  constructor
  · rw [h1]
    simp only [List.map_cons, List.nodup_cons]
    exact ⟨fun hmem => absurd (hk.2 _ hmem) (lt_irrefl _), hk.1⟩
  · intro k hkmem
    rw [h1] at hkmem
    have hc : (DebugState.track_shared_borrow s bt).1.shared_borrow_count
        = s.shared_borrow_count + 1 := rfl
    rw [hc]
    simp only [List.map_cons, List.mem_cons] at hkmem
    rcases hkmem with h2 | h2
    · omega
    · have := hk.2 k h2; omega

lemma untrack_shared_step {s s' : DebugState} {id : Nat}
    (he : DebugState.untrack_shared_borrow s id = some s') :
    s'.shared_borrows = s.shared_borrows.filter (fun p => p.1 ≠ id)
    ∧ s'.mutable_borrow = s.mutable_borrow
    ∧ s'.shared_borrow_count = s.shared_borrow_count
    ∧ id ∈ s.shared_borrows.map Prod.fst := by
  unfold DebugState.untrack_shared_borrow at he
  cases hl : s.shared_borrows.lookup id with
  | none => rw [hl] at he; simp at he
  | some v =>
      rw [hl] at he
      simp only [Option.some_inj] at he
      subst he
      refine ⟨rfl, rfl, rfl, ?_⟩
      exact lookup_isSome_iff.mp (by rw [hl]; rfl)

lemma untrack_shared_keysOk {s s' : DebugState} {id : Nat} (hk : KeysOk s)
    (he : DebugState.untrack_shared_borrow s id = some s') : KeysOk s' := by
  obtain ⟨h1, _, h3, _⟩ := untrack_shared_step he
  constructor
  · rw [h1]
    exact ((List.filter_sublist _).map Prod.fst).nodup hk.1
  · intro k hkm
    rw [h3]
    apply hk.2
    rw [h1] at hkm
    exact ((List.filter_sublist _).map Prod.fst).subset hkm

lemma track_mut_step {s s' : DebugState} {bt : Option Backtrace} {cap : Backtrace}
    (he : DebugState.track_mutable_borrow s bt cap = some s') :
    s.mutable_borrow = none
    ∧ s'.mutable_borrow = some (bt.getD cap)
    ∧ s'.shared_borrows = s.shared_borrows
    ∧ s'.shared_borrow_count = s.shared_borrow_count := by
  unfold DebugState.track_mutable_borrow at he
  cases hm : s.mutable_borrow with
  | some b => rw [hm] at he; simp at he
  | none =>
      rw [hm] at he
      simp only [Option.some_inj] at he
      subst he
      refine ⟨rfl, ?_, rfl, rfl⟩
      cases bt <;> rfl

lemma untrack_mut_step {s : DebugState} {r : Backtrace × DebugState}
    (he : DebugState.untrack_mutable_borrow s = some r) :
    s.mutable_borrow = some r.1
    ∧ r.2.mutable_borrow = none
    ∧ r.2.shared_borrows = s.shared_borrows
    ∧ r.2.shared_borrow_count = s.shared_borrow_count := by
  unfold DebugState.untrack_mutable_borrow at he
  cases hm : s.mutable_borrow with
  | none => rw [hm] at he; simp at he
  | some b =>
      rw [hm] at he
      simp only [Option.some_inj] at he
      subst he
      exact ⟨rfl, rfl, rfl, rfl⟩

lemma runD_invariant (ops : List DOp) :
    ∀ (s₀ s : DebugState) (ids : List Nat),
      runD s₀ ops = some (s, ids) → KeysOk s₀ →
      KeysOk s
      ∧ s.shared_borrows.length + countUntrackShared ops
          = s₀.shared_borrows.length + countTrackShared ops
      ∧ s.mutable_borrow.isSome = mutAfter s₀.mutable_borrow.isSome ops
      ∧ s₀.shared_borrow_count ≤ s.shared_borrow_count
      ∧ (∀ i ∈ ids, s₀.shared_borrow_count ≤ i ∧ i < s.shared_borrow_count)
      ∧ List.Chain' (fun a b => a < b) ids := by
  induction ops with
  | nil =>
      intro s₀ s ids h hk
      simp only [runD, Option.some_inj, Prod.mk.injEq] at h
      obtain ⟨h1, h2⟩ := h
      subst h1; subst h2
      exact ⟨hk, rfl, rfl, le_refl _, by simp, List.chain'_nil⟩
  | cons op ops ih =>
      intro s₀ s ids h hk
      cases op with
      | trackShared bt =>
          simp only [runD] at h
          cases hr : runD (DebugState.track_shared_borrow s₀ bt).1 ops with
          | none => rw [hr] at h; simp at h
          | some p =>
              obtain ⟨t, ids'⟩ := p
              rw [hr] at h
              simp only [Option.some_inj, Prod.mk.injEq] at h
              obtain ⟨h1, h2⟩ := h
              subst h1; subst h2
              have hks₁ := track_shared_keysOk hk bt
              obtain ⟨hkS, hlen, hmut, hcnt, hids, hch⟩ := ih _ _ _ hr hks₁
              have hstep := track_shared_step hk bt
              have hc1 : (DebugState.track_shared_borrow s₀ bt).1.shared_borrow_count
                  = s₀.shared_borrow_count + 1 := rfl
              have hm1 : (DebugState.track_shared_borrow s₀ bt).1.mutable_borrow
                  = s₀.mutable_borrow := rfl
              have hl1 : (DebugState.track_shared_borrow s₀ bt).1.shared_borrows.length
                  = s₀.shared_borrows.length + 1 := by rw [hstep]; rfl
              have h2c : (DebugState.track_shared_borrow s₀ bt).2
                  = s₀.shared_borrow_count := rfl
              rw [hc1] at hcnt hids
              refine ⟨hkS, ?_, ?_, by omega, ?_, ?_⟩
              · simp only [countTrackShared, countUntrackShared]
                omega
              · simp only [mutAfter]
                rw [← hm1]
                exact hmut
              · intro i hi
                rcases List.mem_cons.mp hi with h3 | h3
                · subst h3
                  rw [h2c]
                  exact ⟨le_refl _, by omega⟩
                · obtain ⟨ha, hb⟩ := hids i h3
                  exact ⟨by omega, hb⟩
              · refine List.chain'_cons'.mpr ⟨?_, hch⟩
                intro y hy
                have hmem : y ∈ ids' := List.mem_of_mem_head? hy
                have := (hids y hmem).1
                rw [h2c]
                omega
      | untrackShared id =>
          simp only [runD] at h
          cases hu : DebugState.untrack_shared_borrow s₀ id with
          | none => rw [hu] at h; simp at h
          | some s₁ =>
              rw [hu] at h
              obtain ⟨hst, hmu, hcu, hmem⟩ := untrack_shared_step hu
              have hks₁ : KeysOk s₁ := untrack_shared_keysOk hk hu
              obtain ⟨hkS, hlen, hmut, hcnt, hids, hch⟩ := ih _ _ _ h hks₁
              have hl : s₁.shared_borrows.length + 1 = s₀.shared_borrows.length := by
                rw [hst]; exact length_filter_ne hk.1 hmem
              rw [hcu] at hcnt hids
              rw [hmu] at hmut
              refine ⟨hkS, ?_, ?_, hcnt, hids, hch⟩
              · simp only [countTrackShared, countUntrackShared]
                omega
              · simp only [mutAfter]
                exact hmut
      | trackMut bt cap =>
          simp only [runD] at h
          cases hu : DebugState.track_mutable_borrow s₀ bt cap with
          | none => rw [hu] at h; simp at h
          | some s₁ =>
              rw [hu] at h
              obtain ⟨hm0, hm1, hsb, hcu⟩ := track_mut_step hu
              have hks₁ : KeysOk s₁ := by
                constructor
                · rw [hsb]; exact hk.1
                · intro k hkm
                  rw [hcu]
                  apply hk.2
                  rw [hsb] at hkm
                  exact hkm
              obtain ⟨hkS, hlen, hmut, hcnt, hids, hch⟩ := ih _ _ _ h hks₁
              rw [hcu] at hcnt hids
              rw [hsb] at hlen
              have hms : s₁.mutable_borrow.isSome = true := by rw [hm1]; rfl
              rw [hms] at hmut
              refine ⟨hkS, ?_, ?_, hcnt, hids, hch⟩
              · simp only [countTrackShared, countUntrackShared]
                omega
              · simp only [mutAfter]
                exact hmut
      | untrackMut =>
          simp only [runD] at h
          cases hu : DebugState.untrack_mutable_borrow s₀ with
          | none => rw [hu] at h; simp at h
          | some r =>
              rw [hu] at h
              obtain ⟨hm0, hm1, hsb, hcu⟩ := untrack_mut_step hu
              have hks₁ : KeysOk r.2 := by
                constructor
                · rw [hsb]; exact hk.1
                · intro k hkm
                  rw [hcu]
                  apply hk.2
                  rw [hsb] at hkm
                  exact hkm
              obtain ⟨hkS, hlen, hmut, hcnt, hids, hch⟩ := ih _ _ _ h hks₁
              rw [hcu] at hcnt hids
              rw [hsb] at hlen
              have hms : r.2.mutable_borrow.isSome = false := by rw [hm1]; rfl
              rw [hms] at hmut
              refine ⟨hkS, ?_, ?_, hcnt, hids, hch⟩
              · simp only [countTrackShared, countUntrackShared]
                omega
              · simp only [mutAfter]
                exact hmut

lemma new_keysOk : KeysOk DebugState.new :=
  ⟨List.nodup_nil, by simp [DebugState.new]⟩

/-- C3: for every sequence of ledger calls from `new()` that completes
without a contract violation, the number of stored shared-borrow records
equals the number of `track_shared_borrow` calls minus the number of
`untrack_shared_borrow` calls, and the exclusive record is present iff a
`track_mutable_borrow` call happened with no `untrack_mutable_borrow` after
it. -/
theorem ledger_counts_match_ops (ops : List DOp) (s : DebugState)
    (ids : List Nat) (h : runD DebugState.new ops = some (s, ids)) :
    s.shared_borrows.length + countUntrackShared ops = countTrackShared ops
    ∧ s.mutable_borrow.isSome = mutAfter false ops := by
  obtain ⟨_, hlen, hmut, _, _, _⟩ := runD_invariant ops DebugState.new s ids h new_keysOk
  constructor
  · simpa [DebugState.new] using hlen
  · simpa [DebugState.new] using hmut

/-- Witness for C3 at a concrete call sequence: two shared tracks, one
shared untrack, one mutable track. -/
theorem ledger_counts_match_ops_witness :
    (DebugState.mk 2 [(1, "b")] (some ("c"))).shared_borrows.length
        + countUntrackShared
            [DOp.trackShared ("a"), DOp.trackShared ("b"),
              DOp.untrackShared 0, DOp.trackMut none ("c")]
      = countTrackShared
          [DOp.trackShared ("a"), DOp.trackShared ("b"),
            DOp.untrackShared 0, DOp.trackMut none ("c")]
    ∧ (DebugState.mk 2 [(1, "b")] (some ("c"))).mutable_borrow.isSome
      = mutAfter false
          [DOp.trackShared ("a"), DOp.trackShared ("b"),
            DOp.untrackShared 0, DOp.trackMut none ("c")] :=
  ledger_counts_match_ops
    [DOp.trackShared ("a"), DOp.trackShared ("b"),
      DOp.untrackShared 0, DOp.trackMut none ("c")]
    (DebugState.mk 2 [(1, "b")] (some ("c"))) [0, 1] (by rfl)

/-- C6: over every panic-free sequence of ledger calls from `new()` the ids
returned by `track_shared_borrow` are strictly increasing in call order and
never repeat; each call returns the current counter value, stores the
captured snapshot under it, and bumps the counter; `untrack_shared_borrow`
never decreases the counter. -/
theorem track_shared_ids_fresh_monotonic :
    (∀ ops s ids, runD DebugState.new ops = some (s, ids) →
        List.Chain' (fun a b => a < b) ids ∧ ids.Nodup)
    ∧ (∀ (t : DebugState) (bt : Backtrace),
        (DebugState.track_shared_borrow t bt).2 = t.shared_borrow_count
        ∧ ((DebugState.track_shared_borrow t bt).1.shared_borrows).lookup
            t.shared_borrow_count = some bt
        ∧ (DebugState.track_shared_borrow t bt).1.shared_borrow_count
            = t.shared_borrow_count + 1)
    ∧ (∀ (t : DebugState) (id : Nat) (t' : DebugState),
        DebugState.untrack_shared_borrow t id = some t' →
        t'.shared_borrow_count = t.shared_borrow_count) := by
  refine ⟨fun ops s ids h => ?_, fun t bt => ⟨rfl, ?_, rfl⟩,
    fun t id t' he => (untrack_shared_step he).2.2.1⟩
  · obtain ⟨_, _, _, _, _, hch⟩ :=
      runD_invariant ops DebugState.new s ids h new_keysOk
    refine ⟨hch, ?_⟩
    have hpw : List.Pairwise (fun a b => a < b) ids :=
      List.chain'_iff_pairwise.mp hch
    exact List.Pairwise.imp (fun hab => Nat.ne_of_lt hab) hpw
  · show List.lookup t.shared_borrow_count
        ((t.shared_borrow_count, bt)
          :: t.shared_borrows.filter (fun p => p.1 ≠ t.shared_borrow_count))
      = some bt
    simp [List.lookup]

/-- Witness for C6: two tracked shared borrows return ids 0 then 1, and an
untrack leaves the counter at its value. -/
theorem track_shared_ids_fresh_monotonic_witness :
    (List.Chain' (fun a b => a < b) [0, 1] ∧ ([0, 1] : List Nat).Nodup)
    ∧ (DebugState.mk 1 [] none).shared_borrow_count
      = (DebugState.mk 1 [(0, "a")] none).shared_borrow_count :=
  ⟨track_shared_ids_fresh_monotonic.1
      [DOp.trackShared ("a"), DOp.trackShared ("b")]
      (DebugState.mk 2 [(1, "b"), (0, "a")] none) [0, 1] (by rfl),
    track_shared_ids_fresh_monotonic.2.2
      (DebugState.mk 1 [(0, "a")] none) 0 (DebugState.mk 1 [] none) (by rfl)⟩

lemma lookup_filter_self (l : List (Nat × Backtrace)) (id : Nat) :
    (l.filter (fun p => p.1 ≠ id)).lookup id = none := by
  induction l with
  | nil => rfl
  | cons p t ih =>
      obtain ⟨a, v⟩ := p
      by_cases ha : a = id
      · have hcond : (decide ((a, v).1 ≠ id)) = false := by simp [ha]
        rw [List.filter_cons, hcond]
        simpa using ih
      · have hcond : (decide ((a, v).1 ≠ id)) = true := by simp [ha]
        rw [List.filter_cons, hcond]
        have hb : (id == a) = false := by
          simp only [beq_eq_false_iff_ne, ne_eq]
          intro he
          exact ha he.symm
        simpa [List.lookup, hb] using ih

lemma lookup_filter_other {l : List (Nat × Backtrace)} {id k : Nat}
    (h : k ≠ id) :
    (l.filter (fun p => p.1 ≠ id)).lookup k = l.lookup k := by
  induction l with
  | nil => rfl
  | cons p t ih =>
      obtain ⟨a, v⟩ := p
      have ih' : List.lookup k (List.filter (fun p => !decide (p.1 = id)) t)
          = List.lookup k t := by simpa using ih
      by_cases ha : a = id
      · have hcond : (decide ((a, v).1 ≠ id)) = false := by simp [ha]
        have hb : (k == a) = false := by
          simp only [beq_eq_false_iff_ne, ne_eq]
          intro he
          exact h (he.trans ha)
        rw [List.filter_cons, hcond]
        simp [List.lookup, hb, ih']
      · have hcond : (decide ((a, v).1 ≠ id)) = true := by simp [ha]
        rw [List.filter_cons, hcond]
        by_cases hk : k = a
        · subst hk; simp [List.lookup]
        · have hb : (k == a) = false := by simp [hk]
          simp [List.lookup, hb, ih']

/-- C7: `untrack_shared_borrow(id)` panics exactly when `id` is not currently
tracked; when `id` is tracked it removes the snapshot stored under `id` and
leaves every other entry unchanged. -/
theorem untrack_shared_spec (s : DebugState) (id : Nat) :
    (DebugState.untrack_shared_borrow s id = none
      ↔ s.shared_borrows.lookup id = none)
    ∧ (∀ s', DebugState.untrack_shared_borrow s id = some s' →
        s'.shared_borrows.lookup id = none
        ∧ ∀ k, k ≠ id →
            s'.shared_borrows.lookup k = s.shared_borrows.lookup k) := by
  constructor
  · unfold DebugState.untrack_shared_borrow
    cases hl : s.shared_borrows.lookup id <;> simp
  · intro s' he
    obtain ⟨hst, _, _, _⟩ := untrack_shared_step he
    rw [hst]
    exact ⟨lookup_filter_self _ _, fun k hk => lookup_filter_other hk⟩

/-- Witness for C7: untracking id 0 removes its snapshot and keeps the entry
for id 1. -/
theorem untrack_shared_spec_witness :
    (DebugState.mk 2 [(1, "b")] none).shared_borrows.lookup 0 = none
    ∧ (DebugState.mk 2 [(1, "b")] none).shared_borrows.lookup 1
      = (DebugState.mk 2 [(1, "b"), (0, "a")] none).shared_borrows.lookup 1 :=
  have h := (untrack_shared_spec (DebugState.mk 2 [(1, "b"), (0, "a")] none) 0).2
      (DebugState.mk 2 [(1, "b")] none) (by rfl)
  ⟨h.1, h.2 1 (by decide)⟩

/-- C8: `track_mutable_borrow` panics exactly when an exclusive snapshot is
already recorded; otherwise it records the caller-supplied snapshot when one
is given and the freshly captured one when not. -/
theorem track_mutable_borrow_spec (s : DebugState) (bt : Option Backtrace)
    (cap : Backtrace) :
    (DebugState.track_mutable_borrow s bt cap = none
      ↔ s.mutable_borrow.isSome = true)
    ∧ (∀ s', DebugState.track_mutable_borrow s bt cap = some s' →
        s'.mutable_borrow = some (bt.getD cap)) := by
  constructor
  · unfold DebugState.track_mutable_borrow
    cases s.mutable_borrow <;> simp
  · intro s' he
    exact (track_mut_step he).2.1

/-- Witness for C8: tracking on an occupied ledger is the panic case; on an
empty one the supplied snapshot is recorded, not the captured one. -/
theorem track_mutable_borrow_spec_witness :
    (DebugState.mk 0 [] (some ("z"))).mutable_borrow.isSome = true
    ∧ (DebugState.mk 0 [] (some ("x"))).mutable_borrow
      = some ((some ("x")).getD ("y")) :=
  ⟨(track_mutable_borrow_spec (DebugState.mk 0 [] (some ("z"))) none ("w")).1.mp (by rfl),
    (track_mutable_borrow_spec (DebugState.mk 0 [] none) (some ("x")) ("y")).2
      (DebugState.mk 0 [] (some ("x"))) (by rfl)⟩

/-- C9: `untrack_mutable_borrow` is safe only when an exclusive snapshot is
recorded: then it returns that snapshot and clears the record; with no
exclusive snapshot recorded (for example a second consecutive call) it
panics. -/
theorem untrack_mutable_borrow_spec (s : DebugState) :
    (∀ b, s.mutable_borrow = some b →
        DebugState.untrack_mutable_borrow s
          = some (b, { s with mutable_borrow := none }))
    ∧ (s.mutable_borrow = none → DebugState.untrack_mutable_borrow s = none) := by
  constructor
  · intro b hb
    unfold DebugState.untrack_mutable_borrow
    rw [hb]
  · intro hb
    unfold DebugState.untrack_mutable_borrow
    rw [hb]

/-- Witness for C9: one untrack returns the snapshot, a second consecutive
one panics. -/
theorem untrack_mutable_borrow_spec_witness :
    DebugState.untrack_mutable_borrow (DebugState.mk 0 [] (some ("m")))
      = some ("m", DebugState.mk 0 [] none)
    ∧ DebugState.untrack_mutable_borrow (DebugState.mk 0 [] none) = none :=
  ⟨(untrack_mutable_borrow_spec (DebugState.mk 0 [] (some ("m")))).1 ("m") rfl,
    (untrack_mutable_borrow_spec (DebugState.mk 0 [] none)).2 rfl⟩

/-- C10: the shared and exclusive bookkeeping are disjoint: shared tracking
and untracking leave the exclusive record unchanged, and mutable tracking
and untracking leave the shared map and the id counter unchanged.  (In this
embedding `borrow_locations` is a function of the ledger and returns only a
string, mirroring the `&self` receiver: it cannot modify ledger state.) -/
theorem ledger_frame_disjoint :
    (∀ (s : DebugState) (bt : Backtrace),
        (DebugState.track_shared_borrow s bt).1.mutable_borrow
          = s.mutable_borrow)
    ∧ (∀ (s s' : DebugState) (id : Nat),
        DebugState.untrack_shared_borrow s id = some s' →
        s'.mutable_borrow = s.mutable_borrow)
    ∧ (∀ (s s' : DebugState) (bt : Option Backtrace) (cap : Backtrace),
        DebugState.track_mutable_borrow s bt cap = some s' →
        s'.shared_borrows = s.shared_borrows
        ∧ s'.shared_borrow_count = s.shared_borrow_count)
    ∧ (∀ (s : DebugState) (r : Backtrace × DebugState),
        DebugState.untrack_mutable_borrow s = some r →
        r.2.shared_borrows = s.shared_borrows
        ∧ r.2.shared_borrow_count = s.shared_borrow_count) :=
  ⟨fun _ _ => rfl,
    fun _ _ _ he => (untrack_shared_step he).2.1,
    fun _ _ _ _ he => ⟨(track_mut_step he).2.2.1, (track_mut_step he).2.2.2⟩,
    fun _ _ he => ⟨(untrack_mut_step he).2.2.1, (untrack_mut_step he).2.2.2⟩⟩

/-- Witness for C10 at concrete ledgers: a shared untrack keeps the
exclusive record, a mutable track keeps the shared map and counter. -/
theorem ledger_frame_disjoint_witness :
    (DebugState.mk 1 [] (some ("m"))).mutable_borrow
      = (DebugState.mk 1 [(0, "a")] (some ("m"))).mutable_borrow
    ∧ ((DebugState.mk 0 [(0, "a")] (some ("x"))).shared_borrows
        = (DebugState.mk 0 [(0, "a")] none).shared_borrows
      ∧ (DebugState.mk 0 [(0, "a")] (some ("x"))).shared_borrow_count
        = (DebugState.mk 0 [(0, "a")] none).shared_borrow_count) :=
  ⟨ledger_frame_disjoint.2.1 (DebugState.mk 1 [(0, "a")] (some ("m")))
      (DebugState.mk 1 [] (some ("m"))) 0 (by rfl),
    ledger_frame_disjoint.2.2.1 (DebugState.mk 0 [(0, "a")] none)
      (DebugState.mk 0 [(0, "a")] (some ("x"))) (some ("x")) ("y") (by rfl)⟩

lemma reverse_sort_eq_sort_desc {l : List (Nat × Backtrace)}
    (hnd : (l.map Prod.fst).Nodup) :
    (List.insertionSort DebugState.keyLe l).reverse
      = List.insertionSort keyGe l := by
  have hperm1 : (List.insertionSort DebugState.keyLe l).reverse.Perm l :=
    (List.reverse_perm _).trans (List.perm_insertionSort _ l)
  have hperm2 : (List.insertionSort keyGe l).Perm l := List.perm_insertionSort _ l
  refine List.eq_of_perm_of_sorted (r := keyGt) (hperm1.trans hperm2.symm) ?_ ?_
  · have hs : List.Sorted DebugState.keyLe (List.insertionSort DebugState.keyLe l) :=
      List.sorted_insertionSort _ l
    have hnd1 : ((List.insertionSort DebugState.keyLe l).map Prod.fst).Nodup :=
      (((List.perm_insertionSort DebugState.keyLe l).map Prod.fst).nodup_iff).mpr hnd
    have hne : List.Pairwise (fun p q : Nat × Backtrace => p.1 ≠ q.1)
        (List.insertionSort DebugState.keyLe l) := List.pairwise_map.mp hnd1
    have hlt : List.Pairwise (fun p q : Nat × Backtrace => p.1 < q.1)
        (List.insertionSort DebugState.keyLe l) :=
      (List.Pairwise.and hs hne).imp (fun h => lt_of_le_of_ne h.1 h.2)
    exact List.pairwise_reverse.mpr hlt
  · have hs : List.Sorted keyGe (List.insertionSort keyGe l) :=
      List.sorted_insertionSort _ l
    have hnd2 : ((List.insertionSort keyGe l).map Prod.fst).Nodup :=
      (((List.perm_insertionSort keyGe l).map Prod.fst).nodup_iff).mpr hnd
    have hne : List.Pairwise (fun p q : Nat × Backtrace => p.1 ≠ q.1)
        (List.insertionSort keyGe l) := List.pairwise_map.mp hnd2
    exact (List.Pairwise.and hs hne).imp
      (fun h => lt_of_le_of_ne h.1 (Ne.symm h.2))

/-- C4: on every ledger whose tracked ids are distinct (as in every reachable
ledger), `borrow_locations` renders exactly what the specification says:
the concatenation of all tracked shared snapshots in descending-id order
(most recently acquired first) when any exist, else the exclusive snapshot's
rendering, else the empty string — never mixing the two kinds. -/
theorem borrow_locations_refines_spec (s : DebugState)
    (hnd : (s.shared_borrows.map Prod.fst).Nodup) :
    DebugState.borrow_locations s = borrowLocationsSpec s := by
  unfold DebugState.borrow_locations borrowLocationsSpec
  by_cases he : s.shared_borrows.isEmpty
  · rw [if_neg (not_not_intro he), if_pos he]
  · rw [if_pos he, if_neg he, reverse_sort_eq_sort_desc hnd]

/-- Witness for C4 at a concrete two-entry ledger. -/
theorem borrow_locations_refines_spec_witness :
    DebugState.borrow_locations (DebugState.mk 2 [(0, "a"), (1, "b")] none)
      = borrowLocationsSpec (DebugState.mk 2 [(0, "a"), (1, "b")] none) :=
  borrow_locations_refines_spec (DebugState.mk 2 [(0, "a"), (1, "b")] none)
    (by decide)

lemma length_foldl_append (l : List String) (a : String) :
    (l.foldl (fun acc s => acc ++ s) a).length
      = a.length + (l.map String.length).sum := by
  induction l generalizing a with
  | nil => simp
  | cons x t ih =>
      simp only [List.foldl_cons, List.map_cons, List.sum_cons]
      rw [ih, String.length_append]
      omega

lemma join_length (l : List String) :
    (String.join l).length = (l.map String.length).sum := by
  simpa [String.join] using length_foldl_append l ("")

lemma eq_empty_of_length_zero {s : String} (h : s.length = 0) : s = "" := by
  cases s with
  | mk data =>
      simp [String.length] at h
      simp [h]

lemma join_ne_empty {l : List String} {x : String} (hx : x ∈ l)
    (hxe : x ≠ "") : String.join l ≠ "" := by
  intro hcontra
  have hxlen : 0 < x.length := by
    rcases Nat.eq_zero_or_pos x.length with h0 | h0
    · exact absurd (eq_empty_of_length_zero h0) hxe
    · exact h0
  have hmem : x.length ∈ l.map String.length := List.mem_map_of_mem _ hx
  have hle : x.length ≤ (l.map String.length).sum :=
    List.single_le_sum (fun y _ => Nat.zero_le y) _ hmem
  have hjl := join_length l
  rw [hcontra] at hjl
  have h0 : ("" : String).length = 0 := rfl
  omega

/-- C5: when the tracked snapshots render non-empty (a `Backtrace` never
displays as the empty string), the conflict report is non-empty whenever at
least one borrow is outstanding, and when shared borrows are outstanding it
consists of exactly one entry per tracked shared snapshot. -/
theorem conflict_report_nonempty_and_counts (s : DebugState)
    (hsh : ∀ p ∈ s.shared_borrows, (p.2 : String) ≠ "")
    (hmu : ∀ b, s.mutable_borrow = some b → b ≠ "") :
    ((¬ s.shared_borrows.isEmpty ∨ s.mutable_borrow.isSome = true) →
        DebugState.borrow_locations s ≠ "")
    ∧ (¬ s.shared_borrows.isEmpty →
        ∃ entries : List String,
          DebugState.borrow_locations s = String.join entries
          ∧ entries.length = s.shared_borrows.length
          ∧ ∀ e ∈ entries, e ≠ "") := by
  have hmain : ¬ s.shared_borrows.isEmpty →
      ∃ entries : List String,
        DebugState.borrow_locations s = String.join entries
        ∧ entries.length = s.shared_borrows.length
        ∧ ∀ e ∈ entries, e ≠ "" := by
    intro hne
    refine ⟨((List.insertionSort DebugState.keyLe s.shared_borrows).reverse).map
        (fun p => p.2), ?_, ?_, ?_⟩
    · unfold DebugState.borrow_locations
      rw [if_pos hne]
    · rw [List.length_map, List.length_reverse]
      exact (List.perm_insertionSort _ _).length_eq
    · intro e hee
      simp only [List.mem_map] at hee
      obtain ⟨p, hp, hpe⟩ := hee
      subst hpe
      apply hsh
      have hp2 : p ∈ List.insertionSort DebugState.keyLe s.shared_borrows :=
        List.mem_reverse.mp hp
      exact ((List.perm_insertionSort _ _).mem_iff).mp hp2
  refine ⟨?_, hmain⟩
  intro hout
  by_cases hne : s.shared_borrows.isEmpty
  · have hm : s.mutable_borrow.isSome = true := by
      rcases hout with h1 | h1
      · exact absurd hne h1
      · exact h1
    obtain ⟨b, hb⟩ := Option.isSome_iff_exists.mp hm
    unfold DebugState.borrow_locations
    rw [if_neg (not_not_intro hne), hb]
    exact hmu b hb
  · obtain ⟨entries, heq, hlen, hnn⟩ := hmain hne
    have hpos : 0 < entries.length := by
      rw [hlen]
      cases hsb : s.shared_borrows with
      | nil => rw [hsb] at hne; simp at hne
      | cons a t => simp
    obtain ⟨x, hx⟩ := List.exists_mem_of_length_pos hpos
    rw [heq]
    exact join_ne_empty hx (hnn x hx)

/-- Witness for C5: the report of a ledger holding two shared snapshots is
non-empty. -/
theorem conflict_report_nonempty_witness :
    DebugState.borrow_locations (DebugState.mk 2 [(0, "a"), (1, "b")] none) ≠ "" :=
  (conflict_report_nonempty_and_counts
      (DebugState.mk 2 [(0, "a"), (1, "b")] none)
      (by decide) (fun b h => nomatch h)).1 (Or.inl (by decide))
